import Mathlib

/-!
Shallow embedding of the flow-field simulation core of `src/main.py`.

Python floats (particle coordinates, velocities, friction, acceleration) are
idealised as rationals `ℚ`; the `uint8` channels of the accumulation buffer are
naturals kept in `[0, 255]` by the code's clamping.  Fallible numpy operations
(`np.delete` / indexed assignment with an out-of-range index, which raise
`IndexError`, and the `ZeroDivisionError` of `1 / friction`) are modelled with
`Option`.  The external noise provider (`noise.snoise2`) and the host math
library (`math.pi`, `math.cos`, `math.sin`) are parameters, as the spec
describes them (section 6: the noise function is pluggable and not specified
bit-exact); the per-tick sweep is therefore proved for an arbitrary motion
function `f : Part → Part`, and the concrete motion formula is verified
separately over `ℝ` (`getNewParticlePosition`).
-/

namespace Flowfields

/-- One RGB cell of the accumulation buffer `pixelColourArray`; the channels are
the contents of a numpy `uint8`, hence naturals, kept at most 255 by the
clamping in `drawParticle`. -/
structure RGB where
  r : Nat
  g : Nat
  b : Nat
deriving DecidableEq, Repr

/-- One row of `particlePositions`: position `(x, y)` and velocity `(vx, vy)`. -/
structure Part where
  x : ℚ
  y : ℚ
  vx : ℚ
  vy : ℚ
deriving DecidableEq, Repr

/-- The accumulation buffer `pixelColourArray`, indexed `[y, x]` as in numpy.
(All writes happen at boundary-clamped, hence non-negative, indices.) -/
def Buffer : Type := ℤ → ℤ → RGB

/-- `pixelColourArray[y, x] = c`. -/
def setCell (buf : Buffer) (y x : ℤ) (c : RGB) : Buffer :=
  fun j i => if j = y ∧ i = x then c else buf j i

/-- `pixelColourArray = np.zeros((displayHeight, displayWidth, 3), dtype=np.uint8)`. -/
def pixelColourArray0 : Buffer := fun _ _ => ⟨0, 0, 0⟩

/-- The startup configuration constants read by the core (spec section 6:
fixed at construction, no runtime reconfiguration). -/
structure Config where
  displayWidth : Nat
  displayHeight : Nat
  friction : ℚ
  acceleration : ℚ
  pixelColourRGB : RGB
  mirrorEdgesOnContact : Bool
  interpolation : Bool

/-- `targetWindowSize = 800`. -/
def targetWindowSize : Nat := 800

/-- `pixelScale = 2`. -/
def pixelScale : Nat := 2

/-- `displayWidth = targetWindowSize // pixelScale`. -/
def displayWidth : Nat := targetWindowSize / pixelScale

/-- `displayHeight = targetWindowSize // pixelScale`. -/
def displayHeight : Nat := targetWindowSize / pixelScale

/-- `noiseScale = 5`. -/
def noiseScale : ℚ := 5

/-- `friction = 0.1`. -/
def friction : ℚ := 1 / 10

/-- `acceleration = 1`. -/
def acceleration : ℚ := 1

/-- `colours['blue'] = (1, 6, 24)`, the configured `pixelColourRGB`. -/
def colourBlue : RGB := ⟨1, 6, 24⟩

/-- The configuration the source file runs with. -/
def mainConfig : Config :=
  ⟨displayWidth, displayHeight, friction, acceleration, colourBlue, true, true⟩

/-- Python `int(q)`: truncation toward zero. -/
def pyInt (q : ℚ) : ℤ := if 0 ≤ q then ⌊q⌋ else ⌈q⌉

/-- Python's float `%`: `a % d = a - d * floor (a / d)` (result has the sign of
the divisor; the divisors used here are the positive canvas dimensions). -/
def pyMod (a d : ℚ) : ℚ := a - d * ⌊a / d⌋

/-- `deleteParticle(index)`, i.e. `np.delete(particlePositions, index, axis=0)`;
`none` models the `IndexError` numpy raises when the index is out of range. -/
def deleteParticle (ps : List Part) (index : Nat) : Option (List Part) :=
  if index < ps.length then some (ps.eraseIdx index) else none

/-- `particlePositions[index] = p`; `none` models the numpy `IndexError` on an
out-of-range index. -/
def setPart (ps : List Part) (index : Nat) (p : Part) : Option (List Part) :=
  if index < ps.length then some (ps.set index p) else none

/-- The wrap branch of one axis of `boundPositionToWindow`: `coord %= dim`,
applied only when the coordinate is outside `[0, dim)`. -/
def wrapAxis (coord dim : ℚ) : ℚ :=
  if 0 ≤ coord ∧ coord < dim then coord else pyMod coord dim

/-- One axis of `boundPositionToWindow` (the x and y branches of lines 134-145
are identical up to the dimension used). -/
def boundAxis (cfg : Config) (ps : List Part) (coord dim : ℚ) (particleID : Nat) :
    Option (List Part × ℚ) :=
  if 0 ≤ coord ∧ coord < dim then some (ps, coord)
  else if cfg.mirrorEdgesOnContact then some (ps, pyMod coord dim)
  else (deleteParticle ps particleID).map fun qs => (qs, 0)

/-- `boundPositionToWindow(x, y, particleID)`: each axis independently is left
alone when in `[0, dimension)`, wrapped by `%` in mirror mode, and otherwise
deletes the particle and forces the coordinate to the sentinel 0. -/
def boundPositionToWindow (cfg : Config) (ps : List Part) (x y : ℚ)
    (particleID : Nat) : Option (List Part × ℚ × ℚ) :=
  match boundAxis cfg ps x (cfg.displayWidth : ℚ) particleID with
  | none => none
  | some (ps1, x2) =>
    match boundAxis cfg ps1 y (cfg.displayHeight : ℚ) particleID with
    | none => none
    | some (ps2, y2) => some (ps2, x2, y2)

/-- `np.clip(currentPixel + pixelColourRGB, 0, 255)` on `uint8` contents
(the sum of naturals is already at least 0). -/
def addClamp (c inc : RGB) : RGB :=
  ⟨min (c.r + inc.r) 255, min (c.g + inc.g) 255, min (c.b + inc.b) 255⟩

/-- Result of `drawParticle` / the rasterising loops: the mutated buffer and
particle collection, the returned status (1 = the particle died), and the list
of cells actually written (instrumentation; the code writes at most one cell
per `drawParticle` call). -/
structure DrawOut where
  buf : Buffer
  ps : List Part
  status : Nat
  paints : List (ℤ × ℤ)

/-- `drawParticle(x, y, currentPos)`: truncate the coordinates, add the colour
increment clamped to 255; when all three channels reach 255 the particle at
`currentPos` is deleted, status 1 is returned, and notably the cell itself is
NOT written; otherwise the clamped sum is stored and status 0 returned. -/
def drawParticle (cfg : Config) (buf : Buffer) (ps : List Part) (x y : ℚ)
    (currentPos : Nat) : Option DrawOut :=
  let xi := pyInt x
  let yi := pyInt y
  let newColor := addClamp (buf yi xi) cfg.pixelColourRGB
  if newColor = ⟨255, 255, 255⟩ then
    (deleteParticle ps currentPos).map fun qs => ⟨buf, qs, 1, []⟩
  else
    some ⟨setCell buf yi xi newColor, ps, 0, [(xi, yi)]⟩

/-- `lerp(a, b, t)`. -/
def lerp (a b t : ℚ) : ℚ := a + (b - a) * t

/-- `interpolate(x1, y1, x2, y2, steps)`: `steps` samples at `t = i / steps`
for `i = 0, ..., steps - 1` (start inclusive, end exclusive). -/
def interpolate (x1 y1 x2 y2 : ℚ) (steps : Nat) : List (ℚ × ℚ) :=
  (List.range steps).map fun i =>
    (lerp x1 x2 ((i : ℚ) / (steps : ℚ)), lerp y1 y2 ((i : ℚ) / (steps : ℚ)))

/-- The `for pos in lerpPositions` loop of `drawLine`: re-clamp each sample,
stop on the `x3 + y3 == 0` sentinel, paint, stop when the paint reports
status 1.  Returns the buffer, the particle collection and the concatenated
paint trace. -/
def drawLineLoop (cfg : Config) (buf : Buffer) (ps : List Part)
    (particleID : Nat) :
    List (ℚ × ℚ) → Option (Buffer × List Part × List (ℤ × ℤ))
  | [] => some (buf, ps, [])
  | pos :: rest =>
    match boundPositionToWindow cfg ps pos.1 pos.2 particleID with
    | none => none
    | some (ps1, x3, y3) =>
      if x3 + y3 = 0 then some (buf, ps1, [])
      else
        match drawParticle cfg buf ps1 x3 y3 particleID with
        | none => none
        | some o =>
          if o.status = 1 then some (o.buf, o.ps, o.paints)
          else
            match drawLineLoop cfg o.buf o.ps particleID rest with
            | none => none
            | some (buf2, ps2, pr) => some (buf2, ps2, o.paints ++ pr)

/-- `drawLine(x1, y1, x2, y2, particleID)`.  The Python source computes
`edgeMargin = (1 / friction) * acceleration` unconditionally before the
distance test, so friction = 0 raises `ZeroDivisionError`, modelled as `none`.
Within bounds it paints `ceil(maxDistance)` interpolated samples. -/
def drawLine (cfg : Config) (buf : Buffer) (ps : List Part)
    (x1 y1 x2 y2 : ℚ) (particleID : Nat) :
    Option (Buffer × List Part × List (ℤ × ℤ)) :=
  let maxDistance := max |x1 - x2| |y1 - y2|
  if cfg.friction = 0 then none
  else
    let edgeMargin := 1 / cfg.friction * cfg.acceleration
    if 1 ≤ maxDistance ∧
        maxDistance <
          min ((cfg.displayWidth : ℚ) - edgeMargin)
            ((cfg.displayHeight : ℚ) - edgeMargin) then
      drawLineLoop cfg buf ps particleID
        (interpolate x1 y1 x2 y2 (Int.toNat ⌈maxDistance⌉))
    else some (buf, ps, [])

/-- The body of the per-particle sweep (source lines 222-242) for index `cur`,
with the motion update `f` (i.e. `getNewParticlePosition` composed with the
external noise provider) as a parameter: read the row, advance it, clamp it,
skip on the `x2 + y2 == 0` sentinel, otherwise write the row back and draw
(single pixel when interpolation is off, interpolated line otherwise).
Returns the buffer, the particle collection and the paint trace. -/
def processOne (cfg : Config) (f : Part → Part) (buf : Buffer)
    (ps : List Part) (cur : Nat) :
    Option (Buffer × List Part × List (ℤ × ℤ)) :=
  let p := ps.getD cur ⟨0, 0, 0, 0⟩
  let q := f p
  match boundPositionToWindow cfg ps q.x q.y cur with
  | none => none
  | some (ps1, x2, y2) =>
    if x2 + y2 = 0 then some (buf, ps1, [])
    else
      match setPart ps1 cur ⟨x2, y2, q.vx, q.vy⟩ with
      | none => none
      | some ps2 =>
        if cfg.interpolation = false then
          match drawParticle cfg buf ps2 x2 y2 cur with
          | none => none
          | some o => some (o.buf, o.ps, o.paints)
        else drawLine cfg buf ps2 p.x p.y x2 y2 cur

/-- Result of one full tick: final buffer and particle collection, plus
instrumentation: `reads` lists the rows read at line 222 in order (one entry
per loop iteration that processed a particle), `paints` the painted cells. -/
structure TickOut where
  buf : Buffer
  ps : List Part
  reads : List Part
  paints : List (ℤ × ℤ)

/-- The inner `while currentParticle < particlePositionLength` sweep.  The
outer index advances by exactly 1 each iteration, so the loop runs
`particlePositionLength - currentParticle` more times unless the
`currentParticle >= len(particlePositions)` recheck breaks out; `fuel` is that
remaining iteration count and `cur` the current index. -/
def tickLoop (cfg : Config) (f : Part → Part) :
    Nat → Nat → Buffer → List Part → Option TickOut
  | 0, _, buf, ps => some ⟨buf, ps, [], []⟩
  | fuel + 1, cur, buf, ps =>
    if ps.length ≤ cur then some ⟨buf, ps, [], []⟩
    else
      let p := ps.getD cur ⟨0, 0, 0, 0⟩
      match processOne cfg f buf ps cur with
      | none => none
      | some (buf1, ps1, pr) =>
        match tickLoop cfg f fuel (cur + 1) buf1 ps1 with
        | none => none
        | some o => some ⟨o.buf, o.ps, p :: o.reads, pr ++ o.paints⟩

/-- One tick of the main rendering loop: sweep indices `0, ...,
particlePositionLength - 1` where `particlePositionLength` is the live count
snapshotted at the start of the tick (line 206). -/
def tick (cfg : Config) (f : Part → Part) (buf : Buffer) (ps : List Part) :
    Option TickOut :=
  tickLoop cfg f ps.length 0 buf ps

/-- The outer `while running` loop with a fuel bound: the tick-start check
(line 209) stops the loop exactly when the live count is 0; `none` when the
fuel runs out before termination or a tick raises. -/
def simRun (cfg : Config) (f : Part → Part) :
    Nat → Buffer → List Part → Option (Buffer × List Part)
  | 0, buf, ps => if ps.length = 0 then some (buf, ps) else none
  | fuel + 1, buf, ps =>
    if ps.length = 0 then some (buf, ps)
    else
      match tick cfg f buf ps with
      | none => none
      | some o => simRun cfg f fuel o.buf o.ps

/-- `n` successful ticks in a row (the trajectory of the simulation state). -/
def tickIter (cfg : Config) (f : Part → Part) :
    Nat → Buffer → List Part → Option (Buffer × List Part)
  | 0, buf, ps => some (buf, ps)
  | n + 1, buf, ps =>
    match tick cfg f buf ps with
    | none => none
    | some o => tickIter cfg f n o.buf o.ps

/-- `getNewParticlePosition(x, y, velX, velY, particleID)` over an arbitrary
field (instantiable at `ℝ`, the idealisation of Python floats).  `piV`, `cosF`,
`sinF` stand for the host math library's `math.pi`, `math.cos`, `math.sin`,
and `snoise2` for the external noise provider (spec section 6). -/
def getNewParticlePosition {K : Type} [Field K] (piV : K) (cosF sinF : K → K)
    (snoise2 : K → K → K) (frictionV accelerationV : K)
    (x y velX velY : K) : K × K × K × K :=
  let perlin := snoise2 (x / ((displayWidth : K) + 1) * ((noiseScale : ℚ) : K))
      (y / ((displayHeight : K) + 1) * ((noiseScale : ℚ) : K))
  let perlin2 := (perlin + 1) / 2
  let rad := piV * 2 * perlin2
  let accelX := cosF rad * accelerationV
  let accelY := sinF rad * accelerationV
  let velX2 := (velX + accelX) / (frictionV + 1)
  let velY2 := (velY + accelY) / (frictionV + 1)
  (x + velX2, y + velY2, velX2, velY2)

/-- The NoiseField contract of spec section 4.1: the raw noise sample at the
scaled coordinates is remapped from `[-1, 1]` to `[0, 1]` and scaled to
`[0, 2π)`. -/
def sampleAngle {K : Type} [Field K] (piV : K) (snoise2 : K → K → K)
    (x y : K) : K :=
  piV * 2 *
    ((snoise2 (x / ((displayWidth : K) + 1) * ((noiseScale : ℚ) : K))
        (y / ((displayHeight : K) + 1) * ((noiseScale : ℚ) : K)) + 1) / 2)

/-- Python's `random.randint(a, b)` returns an integer `N` with
`a ≤ N ≤ b` — both endpoints included (Python standard library semantics);
this is the support of the startup sampler `randint(0, displayWidth)`. -/
def randintSupport (a b : Nat) : Finset Nat := Finset.Icc a b

/-- A startup particle (line 75): integer position, zero velocity. -/
def initialParticle (xo yo : Nat) : Part := ⟨(xo : ℚ), (yo : ℚ), 0, 0⟩

/-- All three channels of one cell at most 255. -/
def ChanLE (c : RGB) : Prop := c.r ≤ 255 ∧ c.g ≤ 255 ∧ c.b ≤ 255

/-- Every cell of the buffer has all channels in `[0, 255]` (the lower bound
is inherent: channels are naturals, as `uint8` contents). -/
def BufLE (buf : Buffer) : Prop := ∀ y x, ChanLE (buf y x)

/-- Delete-mode test configuration on a 10 x 10 canvas, interpolation off. -/
def cfgDel : Config := ⟨10, 10, 1, 1, colourBlue, false, false⟩

/-- Wrap-mode test configuration on a 10 x 10 canvas, interpolation off. -/
def cfgNoInterp : Config := ⟨10, 10, 1, 1, colourBlue, true, false⟩

/-- The degenerate friction = 0 configuration of spec section 7. -/
def cfgZeroFriction : Config := ⟨10, 10, 0, 1, colourBlue, true, true⟩

/-- A motion update pushing every particle 20 cells to the left. -/
def fShift : Part → Part := fun p => ⟨p.x - 20, p.y, 1, 1⟩

/-- A motion update pushing every particle 10 cells to the right. -/
def fJump : Part → Part := fun p => ⟨p.x + 10, p.y, 0, 0⟩

/-- A buffer whose cell (0, 0) is one blue increment from saturation. -/
def buf254 : Buffer := setCell pixelColourArray0 0 0 ⟨254, 249, 231⟩

/-!  ## Helper lemmas about the embedded operations  -/

theorem pyMod_eq_fract {d : ℚ} (a : ℚ) (hd : d ≠ 0) :
    pyMod a d = d * Int.fract (a / d) := by
  unfold pyMod Int.fract
  rw [mul_sub, mul_div_cancel₀ a hd]

theorem pyMod_nonneg {d : ℚ} (a : ℚ) (hd : 0 < d) : 0 ≤ pyMod a d := by
  rw [pyMod_eq_fract a hd.ne']
  exact mul_nonneg hd.le (Int.fract_nonneg _)

theorem pyMod_lt {d : ℚ} (a : ℚ) (hd : 0 < d) : pyMod a d < d := by
  rw [pyMod_eq_fract a hd.ne']
  calc d * Int.fract (a / d) < d * 1 :=
        (mul_lt_mul_left hd).mpr (Int.fract_lt_one _)
    _ = d := mul_one d

theorem pyMod_add_int_mul {d : ℚ} (a : ℚ) (k : ℤ) (hd : d ≠ 0) :
    pyMod (a + (k : ℚ) * d) d = pyMod a d := by
  unfold pyMod
  have h1 : (a + (k : ℚ) * d) / d = a / d + (k : ℚ) := by
    field_simp
  rw [h1, Int.floor_add_int]
  push_cast
  ring

theorem wrapAxis_eq_pyMod {d : ℚ} (a : ℚ) (hd : 0 < d) :
    wrapAxis a d = pyMod a d := by
  unfold wrapAxis
  split
  · rename_i h
    have hfloor : ⌊a / d⌋ = 0 := by
      rw [Int.floor_eq_zero_iff]
      exact ⟨div_nonneg h.1 hd.le, (div_lt_one hd).mpr h.2⟩
    unfold pyMod
    rw [hfloor]
    push_cast
    ring
  · rfl

theorem wrapAxis_mem {d : ℚ} (a : ℚ) (hd : 0 < d) :
    0 ≤ wrapAxis a d ∧ wrapAxis a d < d := by
  rw [wrapAxis_eq_pyMod a hd]
  exact ⟨pyMod_nonneg a hd, pyMod_lt a hd⟩

theorem wrapAxis_period {d : ℚ} (a : ℚ) (k : ℤ) (hd : 0 < d) :
    wrapAxis (a + (k : ℚ) * d) d = wrapAxis a d := by
  rw [wrapAxis_eq_pyMod _ hd, wrapAxis_eq_pyMod _ hd,
    pyMod_add_int_mul a k hd.ne']

theorem boundAxis_wrap {cfg : Config} (ps : List Part) (a d : ℚ)
    (pid : Nat) (hm : cfg.mirrorEdgesOnContact = true) :
    boundAxis cfg ps a d pid = some (ps, wrapAxis a d) := by
  unfold boundAxis wrapAxis
  split <;> simp_all

theorem deleteParticle_length {ps qs : List Part} {i : Nat}
    (h : deleteParticle ps i = some qs) :
    i < ps.length ∧ qs.length + 1 = ps.length := by
  unfold deleteParticle at h
  split at h
  · rename_i hlt
    obtain rfl : ps.eraseIdx i = qs := by injection h
    refine ⟨hlt, ?_⟩
    rw [List.length_eraseIdx, if_pos hlt]
    omega
  · cases h

theorem setPart_length {ps qs : List Part} {i : Nat} {p : Part}
    (h : setPart ps i p = some qs) : qs.length = ps.length := by
  unfold setPart at h
  split at h
  · obtain rfl : ps.set i p = qs := by injection h
    exact List.length_set ps i p
  · cases h

theorem boundAxis_length {cfg : Config} {ps qs : List Part} {a d b : ℚ}
    {pid : Nat} (h : boundAxis cfg ps a d pid = some (qs, b)) :
    qs.length ≤ ps.length := by
  unfold boundAxis at h
  split at h
  · simp only [Option.some.injEq, Prod.mk.injEq] at h
    obtain ⟨rfl, rfl⟩ := h
    exact le_refl _
  · split at h
    · simp only [Option.some.injEq, Prod.mk.injEq] at h
      obtain ⟨rfl, rfl⟩ := h
      exact le_refl _
    · cases hdel : deleteParticle ps pid with
      | none => rw [hdel] at h; cases h
      | some r =>
        rw [hdel] at h
        simp only [Option.map_some', Option.some.injEq, Prod.mk.injEq] at h
        obtain ⟨rfl, rfl⟩ := h
        have := deleteParticle_length hdel
        omega

theorem boundPositionToWindow_length {cfg : Config} {ps qs : List Part}
    {x y a b : ℚ} {pid : Nat}
    (h : boundPositionToWindow cfg ps x y pid = some (qs, a, b)) :
    qs.length ≤ ps.length := by
  unfold boundPositionToWindow at h
  cases h1 : boundAxis cfg ps x (cfg.displayWidth : ℚ) pid with
  | none => rw [h1] at h; cases h
  | some r1 =>
    obtain ⟨p1, c1⟩ := r1
    rw [h1] at h
    dsimp only at h
    cases h2 : boundAxis cfg p1 y (cfg.displayHeight : ℚ) pid with
    | none => rw [h2] at h; cases h
    | some r2 =>
      obtain ⟨p2, c2⟩ := r2
      rw [h2] at h
      simp only [Option.some.injEq, Prod.mk.injEq] at h
      obtain ⟨rfl, -, -⟩ := h
      exact le_trans (boundAxis_length h2) (boundAxis_length h1)

theorem addClamp_chanLE (c inc : RGB) : ChanLE (addClamp c inc) :=
  ⟨min_le_right _ _, min_le_right _ _, min_le_right _ _⟩

theorem bufLE_setCell {buf : Buffer} {c : RGB} {y x : ℤ}
    (hb : BufLE buf) (hc : ChanLE c) : BufLE (setCell buf y x c) := by
  intro j i
  unfold setCell
  split
  · exact hc
  · exact hb j i

theorem drawParticle_cases {cfg : Config} {buf : Buffer} {ps : List Part}
    {x y : ℚ} {cur : Nat} {o : DrawOut}
    (h : drawParticle cfg buf ps x y cur = some o) :
    (addClamp (buf (pyInt y) (pyInt x)) cfg.pixelColourRGB = ⟨255, 255, 255⟩ ∧
      o.buf = buf ∧ o.status = 1 ∧ o.paints = [] ∧
      deleteParticle ps cur = some o.ps) ∨
    (addClamp (buf (pyInt y) (pyInt x)) cfg.pixelColourRGB ≠ ⟨255, 255, 255⟩ ∧
      o.buf = setCell buf (pyInt y) (pyInt x)
          (addClamp (buf (pyInt y) (pyInt x)) cfg.pixelColourRGB) ∧
      o.status = 0 ∧ o.paints = [(pyInt x, pyInt y)] ∧ o.ps = ps) := by
  unfold drawParticle at h
  dsimp only at h
  split at h
  · rename_i hw
    left
    cases hdel : deleteParticle ps cur with
    | none => rw [hdel] at h; cases h
    | some qs =>
      rw [hdel] at h
      simp only [Option.map_some', Option.some.injEq] at h
      subst h
      exact ⟨hw, rfl, rfl, rfl, rfl⟩
  · rename_i hw
    right
    simp only [Option.some.injEq] at h
    subst h
    exact ⟨hw, rfl, rfl, rfl, rfl⟩

theorem drawParticle_length {cfg : Config} {buf : Buffer} {ps : List Part}
    {x y : ℚ} {cur : Nat} {o : DrawOut}
    (h : drawParticle cfg buf ps x y cur = some o) :
    o.ps.length ≤ ps.length := by
  rcases drawParticle_cases h with ⟨-, -, -, -, hdel⟩ | ⟨-, -, -, -, rfl⟩
  · have := deleteParticle_length hdel
    omega
  · exact le_refl _

theorem drawParticle_bufLE {cfg : Config} {buf : Buffer} {ps : List Part}
    {x y : ℚ} {cur : Nat} {o : DrawOut}
    (h : drawParticle cfg buf ps x y cur = some o) (hb : BufLE buf) :
    BufLE o.buf := by
  rcases drawParticle_cases h with ⟨-, rfl, -, -, -⟩ | ⟨-, hbuf, -, -, -⟩
  · exact hb
  · rw [hbuf]
    exact bufLE_setCell hb (addClamp_chanLE _ _)

theorem drawParticle_paints {cfg : Config} {buf : Buffer} {ps : List Part}
    {x y : ℚ} {cur : Nat} {o : DrawOut}
    (h : drawParticle cfg buf ps x y cur = some o) :
    o.paints.length ≤ 1 ∧ ∀ e ∈ o.paints, e = (pyInt x, pyInt y) := by
  rcases drawParticle_cases h with ⟨-, -, -, hpr, -⟩ | ⟨-, -, -, hpr, -⟩ <;>
    rw [hpr] <;> simp

theorem drawLineLoop_spec {cfg : Config} {pid : Nat} (l : List (ℚ × ℚ)) :
    ∀ {buf ps buf2 ps2 pr},
      drawLineLoop cfg buf ps pid l = some (buf2, ps2, pr) →
      ps2.length ≤ ps.length ∧ (BufLE buf → BufLE buf2) := by
  induction l with
  | nil =>
    intro buf ps buf2 ps2 pr h
    unfold drawLineLoop at h
    simp only [Option.some.injEq, Prod.mk.injEq] at h
    obtain ⟨rfl, rfl, rfl⟩ := h
    exact ⟨le_refl _, fun hb => hb⟩
  | cons pos rest ih =>
    intro buf ps buf2 ps2 pr h
    unfold drawLineLoop at h
    cases hb1 : boundPositionToWindow cfg ps pos.1 pos.2 pid with
    | none => rw [hb1] at h; cases h
    | some r1 =>
      obtain ⟨ps1, x3, y3⟩ := r1
      rw [hb1] at h
      dsimp only at h
      split at h
      · simp only [Option.some.injEq, Prod.mk.injEq] at h
        obtain ⟨rfl, rfl, rfl⟩ := h
        exact ⟨boundPositionToWindow_length hb1, fun hb => hb⟩
      · cases hdp : drawParticle cfg buf ps1 x3 y3 pid with
        | none => rw [hdp] at h; cases h
        | some o =>
          rw [hdp] at h
          dsimp only at h
          split at h
          · simp only [Option.some.injEq, Prod.mk.injEq] at h
            obtain ⟨rfl, rfl, rfl⟩ := h
            exact ⟨le_trans (drawParticle_length hdp)
                (boundPositionToWindow_length hb1),
              fun hb => drawParticle_bufLE hdp hb⟩
          · cases hrec : drawLineLoop cfg o.buf o.ps pid rest with
            | none => rw [hrec] at h; cases h
            | some r2 =>
              obtain ⟨b2, p2, pr2⟩ := r2
              rw [hrec] at h
              dsimp only at h
              simp only [Option.some.injEq, Prod.mk.injEq] at h
              obtain ⟨rfl, rfl, rfl⟩ := h
              have hih := ih hrec
              exact ⟨le_trans hih.1 (le_trans (drawParticle_length hdp)
                  (boundPositionToWindow_length hb1)),
                fun hb => hih.2 (drawParticle_bufLE hdp hb)⟩

theorem drawLine_spec {cfg : Config} {buf : Buffer} {ps : List Part}
    {x1 y1 x2 y2 : ℚ} {pid : Nat} {buf2 : Buffer} {ps2 : List Part}
    {pr : List (ℤ × ℤ)}
    (h : drawLine cfg buf ps x1 y1 x2 y2 pid = some (buf2, ps2, pr)) :
    ps2.length ≤ ps.length ∧ (BufLE buf → BufLE buf2) := by
  unfold drawLine at h
  dsimp only at h
  split at h
  · cases h
  · split at h
    · exact drawLineLoop_spec _ h
    · simp only [Option.some.injEq, Prod.mk.injEq] at h
      obtain ⟨rfl, rfl, rfl⟩ := h
      exact ⟨le_refl _, fun hb => hb⟩

theorem processOne_spec {cfg : Config} {f : Part → Part} {buf : Buffer}
    {ps : List Part} {cur : Nat} {buf2 : Buffer} {ps2 : List Part}
    {pr : List (ℤ × ℤ)}
    (h : processOne cfg f buf ps cur = some (buf2, ps2, pr)) :
    ps2.length ≤ ps.length ∧ (BufLE buf → BufLE buf2) := by
  unfold processOne at h
  dsimp only at h
  cases hb : boundPositionToWindow cfg ps (f (ps.getD cur ⟨0, 0, 0, 0⟩)).x
      (f (ps.getD cur ⟨0, 0, 0, 0⟩)).y cur with
  | none => rw [hb] at h; cases h
  | some r1 =>
    obtain ⟨ps1, x2, y2⟩ := r1
    rw [hb] at h
    dsimp only at h
    split at h
    · simp only [Option.some.injEq, Prod.mk.injEq] at h
      obtain ⟨rfl, rfl, rfl⟩ := h
      exact ⟨boundPositionToWindow_length hb, fun hbuf => hbuf⟩
    · cases hsp : setPart ps1 cur ⟨x2, y2, (f (ps.getD cur ⟨0, 0, 0, 0⟩)).vx,
          (f (ps.getD cur ⟨0, 0, 0, 0⟩)).vy⟩ with
      | none => rw [hsp] at h; cases h
      | some ps3 =>
        rw [hsp] at h
        dsimp only at h
        have hlen3 : ps3.length ≤ ps.length := by
          rw [setPart_length hsp]
          exact boundPositionToWindow_length hb
        split at h
        · cases hdp : drawParticle cfg buf ps3 x2 y2 cur with
          | none => rw [hdp] at h; cases h
          | some o =>
            rw [hdp] at h
            dsimp only at h
            simp only [Option.some.injEq, Prod.mk.injEq] at h
            obtain ⟨rfl, rfl, rfl⟩ := h
            exact ⟨le_trans (drawParticle_length hdp) hlen3,
              fun hbuf => drawParticle_bufLE hdp hbuf⟩
        · have := drawLine_spec h
          exact ⟨le_trans this.1 hlen3, this.2⟩

theorem tickLoop_spec {cfg : Config} {f : Part → Part} (fuel : Nat) :
    ∀ {cur : Nat} {buf : Buffer} {ps : List Part} {o : TickOut},
      tickLoop cfg f fuel cur buf ps = some o →
      o.ps.length ≤ ps.length ∧ (BufLE buf → BufLE o.buf) := by
  induction fuel with
  | zero =>
    intro cur buf ps o h
    unfold tickLoop at h
    simp only [Option.some.injEq] at h
    subst h
    exact ⟨le_refl _, fun hb => hb⟩
  | succ n ih =>
    intro cur buf ps o h
    unfold tickLoop at h
    split at h
    · simp only [Option.some.injEq] at h
      subst h
      exact ⟨le_refl _, fun hb => hb⟩
    · dsimp only at h
      cases hp : processOne cfg f buf ps cur with
      | none => rw [hp] at h; cases h
      | some r1 =>
        obtain ⟨buf1, ps1, pr⟩ := r1
        rw [hp] at h
        dsimp only at h
        cases hrec : tickLoop cfg f n (cur + 1) buf1 ps1 with
        | none => rw [hrec] at h; cases h
        | some o2 =>
          rw [hrec] at h
          simp only [Option.some.injEq] at h
          subst h
          have h1 := processOne_spec hp
          have h2 := ih hrec
          exact ⟨le_trans h2.1 h1.1, fun hb => h2.2 (h1.2 hb)⟩

theorem tick_spec {cfg : Config} {f : Part → Part} {buf : Buffer}
    {ps : List Part} {o : TickOut} (h : tick cfg f buf ps = some o) :
    o.ps.length ≤ ps.length ∧ (BufLE buf → BufLE o.buf) :=
  tickLoop_spec _ h

theorem simRun_length_zero {cfg : Config} {f : Part → Part} (fuel : Nat) :
    ∀ {buf : Buffer} {ps : List Part} {r},
      simRun cfg f fuel buf ps = some r → r.2.length = 0 := by
  induction fuel with
  | zero =>
    intro buf ps r h
    unfold simRun at h
    split at h
    · rename_i h0
      simp only [Option.some.injEq] at h
      subst h
      exact h0
    · cases h
  | succ n ih =>
    intro buf ps r h
    unfold simRun at h
    split at h
    · rename_i h0
      simp only [Option.some.injEq] at h
      subst h
      exact h0
    · cases ht : tick cfg f buf ps with
      | none => rw [ht] at h; cases h
      | some o =>
        rw [ht] at h
        exact ih h

theorem simRun_bufLE {cfg : Config} {f : Part → Part} (fuel : Nat) :
    ∀ {buf : Buffer} {ps : List Part} {r},
      simRun cfg f fuel buf ps = some r → BufLE buf → BufLE r.1 := by
  induction fuel with
  | zero =>
    intro buf ps r h hb
    unfold simRun at h
    split at h
    · simp only [Option.some.injEq] at h
      subst h
      exact hb
    · cases h
  | succ n ih =>
    intro buf ps r h hb
    unfold simRun at h
    split at h
    · simp only [Option.some.injEq] at h
      subst h
      exact hb
    · cases ht : tick cfg f buf ps with
      | none => rw [ht] at h; cases h
      | some o =>
        rw [ht] at h
        exact ih h ((tick_spec ht).2 hb)

theorem simRun_exists_of_tickIter {cfg : Config} {f : Part → Part} (n : Nat) :
    ∀ {buf : Buffer} {ps : List Part} {r},
      tickIter cfg f n buf ps = some r → r.2.length = 0 →
      ∃ fuel s, simRun cfg f fuel buf ps = some s := by
  induction n with
  | zero =>
    intro buf ps r h hr
    unfold tickIter at h
    simp only [Option.some.injEq] at h
    subst h
    exact ⟨0, (buf, ps), by unfold simRun; rw [if_pos hr]⟩
  | succ n ih =>
    intro buf ps r h hr
    by_cases h0 : ps.length = 0
    · exact ⟨0, (buf, ps), by unfold simRun; rw [if_pos h0]⟩
    · unfold tickIter at h
      cases ht : tick cfg f buf ps with
      | none => rw [ht] at h; cases h
      | some o =>
        rw [ht] at h
        obtain ⟨fuel, s, hs⟩ := ih h hr
        refine ⟨fuel + 1, s, ?_⟩
        unfold simRun
        rw [if_neg h0, ht]
        exact hs

theorem tickIter_exists_of_simRun {cfg : Config} {f : Part → Part}
    (fuel : Nat) :
    ∀ {buf : Buffer} {ps : List Part} {s},
      simRun cfg f fuel buf ps = some s →
      ∃ n r, tickIter cfg f n buf ps = some r ∧ r.2.length = 0 := by
  induction fuel with
  | zero =>
    intro buf ps s h
    unfold simRun at h
    split at h
    · rename_i h0
      exact ⟨0, (buf, ps), rfl, h0⟩
    · cases h
  | succ n ih =>
    intro buf ps s h
    unfold simRun at h
    split at h
    · rename_i h0
      exact ⟨0, (buf, ps), rfl, h0⟩
    · cases ht : tick cfg f buf ps with
      | none => rw [ht] at h; cases h
      | some o =>
        rw [ht] at h
        obtain ⟨m, r, hr, hr0⟩ := ih h
        refine ⟨m + 1, r, ?_, hr0⟩
        unfold tickIter
        rw [ht]
        exact hr

/-!  ## Claim theorems  -/

/-- C7: in wrap mode the boundary clamp of a coordinate `p` against a positive
dimension `d` always lands in `[0, d)` and is invariant under shifting `p` by
any integer multiple of `d` (true toroidal wrap via modulo, not reflection);
moreover `boundPositionToWindow` applies exactly this per-axis wrap and leaves
the particle collection untouched. -/
theorem C7_wrap_invariant (p d : ℚ) (k : ℤ) (cfg : Config) (ps : List Part)
    (x y : ℚ) (pid : Nat) (hd : 0 < d) (hm : cfg.mirrorEdgesOnContact = true) :
    (0 ≤ wrapAxis p d ∧ wrapAxis p d < d) ∧
    wrapAxis (p + (k : ℚ) * d) d = wrapAxis p d ∧
    boundPositionToWindow cfg ps x y pid =
      some (ps, wrapAxis x (cfg.displayWidth : ℚ),
        wrapAxis y (cfg.displayHeight : ℚ)) := by
  refine ⟨wrapAxis_mem p hd, wrapAxis_period p k hd, ?_⟩
  unfold boundPositionToWindow
  rw [boundAxis_wrap ps x _ pid hm]
  dsimp only
  rw [boundAxis_wrap ps y _ pid hm]

/-- C7 witness: p = 905, d = 400, k = -2, and a clamp call with the actual
wrap-mode run configuration. -/
theorem C7_wrap_invariant_witness :
    (0 ≤ wrapAxis 905 400 ∧ wrapAxis 905 400 < 400) ∧
    wrapAxis (905 + ((-2 : ℤ) : ℚ) * 400) 400 = wrapAxis 905 400 ∧
    boundPositionToWindow mainConfig [] 905 (-3) 7 =
      some ([], wrapAxis 905 (mainConfig.displayWidth : ℚ),
        wrapAxis (-3) (mainConfig.displayHeight : ℚ)) :=
  C7_wrap_invariant 905 400 (-2) mainConfig [] 905 (-3) 7 (by norm_num) rfl

/-- C5: the motion update returns exactly: the angle sampled from the noise
field at (x, y); acceleration vector (cos(angle) * acceleration,
sin(angle) * acceleration); new velocity = (old velocity + acceleration
vector) / (1 + friction); new position = old position + new velocity — and it
is a pure function of its arguments (no side effects). -/
theorem C5_motion_update {K : Type} [Field K] (piV : K) (cosF sinF : K → K)
    (sn : K → K → K) (fr ac x y vx vy : K) :
    getNewParticlePosition piV cosF sinF sn fr ac x y vx vy =
      (x + (vx + cosF (sampleAngle piV sn x y) * ac) / (1 + fr),
       y + (vy + sinF (sampleAngle piV sn x y) * ac) / (1 + fr),
       (vx + cosF (sampleAngle piV sn x y) * ac) / (1 + fr),
       (vy + sinF (sampleAngle piV sn x y) * ac) / (1 + fr)) := by
  unfold getNewParticlePosition sampleAngle
  rw [add_comm fr 1]

/-- C4: channel-clamp invariant: the initial buffer is all-zero, every single
paint stores a value clamped to 255 per channel, and `drawParticle`, whole
ticks and whole runs preserve the bound — so on every reachable accumulation
buffer, under every sequence of paints, every channel of every cell stays
within [0, 255] (the lower bound is inherent: channels are naturals). -/
theorem C4_channel_clamp :
    BufLE pixelColourArray0 ∧
    (∀ c inc, ChanLE (addClamp c inc)) ∧
    (∀ cfg buf ps x y cur o, drawParticle cfg buf ps x y cur = some o →
      BufLE buf → BufLE o.buf) ∧
    (∀ cfg f buf ps o, tick cfg f buf ps = some o → BufLE buf → BufLE o.buf) ∧
    (∀ cfg f fuel buf ps r, simRun cfg f fuel buf ps = some r →
      BufLE buf → BufLE r.1) := by
  refine ⟨?_, addClamp_chanLE, ?_, ?_, ?_⟩
  · intro y x
    exact ⟨Nat.zero_le _, Nat.zero_le _, Nat.zero_le _⟩
  · intro cfg buf ps x y cur o h hb
    exact drawParticle_bufLE h hb
  · intro cfg f buf ps o h hb
    exact (tick_spec h).2 hb
  · intro cfg f fuel buf ps r h hb
    exact simRun_bufLE fuel h hb

/-- C4 witness: the bound holds for the buffer of a concrete completed tick
starting from the all-zero buffer. -/
theorem C4_channel_clamp_witness : BufLE pixelColourArray0 :=
  C4_channel_clamp.2.2.2.1 mainConfig (fun p => p) pixelColourArray0 []
    ⟨pixelColourArray0, [], [], []⟩ rfl
    (fun _ _ => ⟨Nat.zero_le _, Nat.zero_le _, Nat.zero_le _⟩)

/-- C8: the live particle count never increases across a tick; a normally
terminated run ends with count 0; and the outer loop halts (for some fuel)
exactly when some iterate of the tick reaches count 0. -/
theorem C8_population (cfg : Config) (f : Part → Part) (buf : Buffer)
    (ps : List Part) :
    (∀ o, tick cfg f buf ps = some o → o.ps.length ≤ ps.length) ∧
    (∀ fuel r, simRun cfg f fuel buf ps = some r → r.2.length = 0) ∧
    ((∃ fuel r, simRun cfg f fuel buf ps = some r) ↔
      ∃ n r, tickIter cfg f n buf ps = some r ∧ r.2.length = 0) := by
  refine ⟨fun o h => (tick_spec h).1,
    fun fuel r h => simRun_length_zero fuel h, ?_, ?_⟩
  · rintro ⟨fuel, s, hs⟩
    exact tickIter_exists_of_simRun fuel hs
  · rintro ⟨n, r, hr, hr0⟩
    exact simRun_exists_of_tickIter n hr hr0

/-- C8 witness: a run starting with no particles halts immediately with
count 0. -/
theorem C8_population_witness :
    ((pixelColourArray0, ([] : List Part)).2).length = 0 :=
  (C8_population mainConfig (fun p => p) pixelColourArray0 []).2.1 0
    (pixelColourArray0, []) rfl

/-- C1 counterexample: in delete mode, a particle whose new position is out of
range on both axes triggers two deletions — the live count drops from 2 to 0,
not by exactly one (the second deletion even removes a different particle). -/
theorem C1_delete_mode_cex :
    (boundPositionToWindow cfgDel [⟨5, 5, 0, 0⟩, ⟨3, 4, 0, 0⟩] (-1) 500 0).map
        (fun r => r.1.length) = some 0 ∧ (0 : Nat) ≠ 2 - 1 := by
  constructor
  · norm_num [boundPositionToWindow, boundAxis, cfgDel, deleteParticle]
  · decide

/-- C1 (amended): with delete mode, the boundary clamp deletes one particle per
out-of-range coordinate — the live count drops by exactly one when exactly one
coordinate is out of range, and by two when both are (while the index stays
valid); the clamp itself paints nothing, and whenever it yields the (0, 0)
sentinel the tick paints no cell and leaves the buffer untouched for that
particle. -/
theorem C1_delete_mode (cfg : Config) (ps : List Part) (x y : ℚ) (pid : Nat)
    (hm : cfg.mirrorEdgesOnContact = false) :
    (¬(0 ≤ x ∧ x < (cfg.displayWidth : ℚ)) →
      (0 ≤ y ∧ y < (cfg.displayHeight : ℚ)) → pid < ps.length →
      (boundPositionToWindow cfg ps x y pid).map (fun r => r.1.length) =
        some (ps.length - 1)) ∧
    ((0 ≤ x ∧ x < (cfg.displayWidth : ℚ)) →
      ¬(0 ≤ y ∧ y < (cfg.displayHeight : ℚ)) → pid < ps.length →
      (boundPositionToWindow cfg ps x y pid).map (fun r => r.1.length) =
        some (ps.length - 1)) ∧
    (¬(0 ≤ x ∧ x < (cfg.displayWidth : ℚ)) →
      ¬(0 ≤ y ∧ y < (cfg.displayHeight : ℚ)) → pid + 1 < ps.length →
      (boundPositionToWindow cfg ps x y pid).map (fun r => r.1.length) =
        some (ps.length - 2)) ∧
    (∀ f buf cur ps1 x2 y2 buf2 ps2 pr,
      processOne cfg f buf ps cur = some (buf2, ps2, pr) →
      boundPositionToWindow cfg ps (f (ps.getD cur ⟨0, 0, 0, 0⟩)).x
        (f (ps.getD cur ⟨0, 0, 0, 0⟩)).y cur = some (ps1, x2, y2) →
      x2 + y2 = 0 → buf2 = buf ∧ pr = []) := by
  refine ⟨?_, ?_, ?_, ?_⟩
  · intro hx hy hpid
    simp [boundPositionToWindow, boundAxis, hm, hx, hy, deleteParticle,
      List.length_eraseIdx, hpid]
  · intro hx hy hpid
    simp [boundPositionToWindow, boundAxis, hm, hx, hy, deleteParticle,
      List.length_eraseIdx, hpid]
  · intro hx hy hpid2
    have hpid : pid < ps.length := by omega
    have hpid1 : pid < ps.length - 1 := by omega
    simp [boundPositionToWindow, boundAxis, hm, hx, hy, deleteParticle,
      List.length_eraseIdx, hpid, hpid1]
    omega
  · intro f buf cur ps1 x2 y2 buf2 ps2 pr h hbnd hsent
    unfold processOne at h
    dsimp only at h
    rw [hbnd] at h
    dsimp only at h
    rw [if_pos hsent] at h
    simp only [Option.some.injEq, Prod.mk.injEq] at h
    obtain ⟨rfl, rfl, rfl⟩ := h
    exact ⟨rfl, rfl⟩

/-- C1 witness: one coordinate (x = -1) out of range on a two-particle
collection deletes exactly one particle. -/
theorem C1_delete_mode_witness :
    (boundPositionToWindow cfgDel [⟨5, 5, 0, 0⟩, ⟨3, 4, 0, 0⟩] (-1) 5 0).map
        (fun r => r.1.length) =
      some (([⟨5, 5, 0, 0⟩, ⟨3, 4, 0, 0⟩] : List Part).length - 1) :=
  (C1_delete_mode cfgDel [⟨5, 5, 0, 0⟩, ⟨3, 4, 0, 0⟩] (-1) 5 0 rfl).1
    (by norm_num [cfgDel]) (by norm_num [cfgDel]) (by norm_num)

/-- C2 counterexample: a paint call that completes saturation reports died and
removes the particle, but the incremented colour is NOT stored — the cell stays
at its previous value instead of becoming (255, 255, 255) as the claim's
"the increment is added to the cell" requires. -/
theorem C2_paint_saturation_cex :
    addClamp (buf254 0 0) mainConfig.pixelColourRGB = ⟨255, 255, 255⟩ ∧
    (drawParticle mainConfig buf254 [⟨0, 0, 0, 0⟩] 0 0 0).map
        (fun o => (o.ps, o.status, o.buf 0 0)) =
      some ([], 1, ⟨254, 249, 231⟩) ∧
    (⟨254, 249, 231⟩ : RGB) ≠ ⟨255, 255, 255⟩ := by
  refine ⟨?_, ?_, by decide⟩
  · norm_num [buf254, setCell, pixelColourArray0, addClamp, mainConfig,
      colourBlue]
  · norm_num [drawParticle, buf254, setCell, pixelColourArray0, addClamp,
      mainConfig, colourBlue, pyInt, deleteParticle]

/-- C2 (amended): `paint(x, y, id)` computes the channel-wise clamped sum of
the cell and the configured increment (each channel at most 255); if that sum
is (255, 255, 255) the call reports died exactly once, the particle is removed
from the live collection, no further paints occur for it that tick (the
rasterising loop stops), but the cell itself is left unchanged; otherwise the
clamped sum is written and the call reports continue. -/
theorem C2_paint_saturation (cfg : Config) (buf : Buffer) (ps : List Part)
    (x y : ℚ) (cur : Nat) (hcur : cur < ps.length) :
    (addClamp (buf (pyInt y) (pyInt x)) cfg.pixelColourRGB = ⟨255, 255, 255⟩ →
      drawParticle cfg buf ps x y cur =
        some ⟨buf, ps.eraseIdx cur, 1, []⟩) ∧
    (addClamp (buf (pyInt y) (pyInt x)) cfg.pixelColourRGB ≠ ⟨255, 255, 255⟩ →
      drawParticle cfg buf ps x y cur =
        some ⟨setCell buf (pyInt y) (pyInt x)
            (addClamp (buf (pyInt y) (pyInt x)) cfg.pixelColourRGB),
          ps, 0, [(pyInt x, pyInt y)]⟩) ∧
    ChanLE (addClamp (buf (pyInt y) (pyInt x)) cfg.pixelColourRGB) ∧
    (∀ pos rest ps1 x3 y3 o,
      boundPositionToWindow cfg ps pos.1 pos.2 cur = some (ps1, x3, y3) →
      x3 + y3 ≠ 0 → drawParticle cfg buf ps1 x3 y3 cur = some o →
      o.status = 1 →
      drawLineLoop cfg buf ps cur (pos :: rest) =
        some (o.buf, o.ps, o.paints)) := by
  refine ⟨?_, ?_, addClamp_chanLE _ _, ?_⟩
  · intro hsat
    unfold drawParticle
    dsimp only
    rw [if_pos hsat]
    unfold deleteParticle
    rw [if_pos hcur]
    rfl
  · intro hne
    unfold drawParticle
    dsimp only
    rw [if_neg hne]
  · intro pos rest ps1 x3 y3 o hbnd hxy hdp hst
    unfold drawLineLoop
    rw [hbnd]
    dsimp only
    rw [if_neg hxy, hdp]
    dsimp only
    rw [if_pos hst]

/-- C2 witness: a non-saturating paint on the all-zero buffer writes the
clamped sum and reports continue. -/
theorem C2_paint_saturation_witness :
    drawParticle mainConfig pixelColourArray0 [⟨0, 0, 0, 0⟩] 0 0 0 =
      some ⟨setCell pixelColourArray0 (pyInt 0) (pyInt 0)
          (addClamp (pixelColourArray0 (pyInt 0) (pyInt 0))
            mainConfig.pixelColourRGB),
        [⟨0, 0, 0, 0⟩], 0, [(pyInt 0, pyInt 0)]⟩ :=
  (C2_paint_saturation mainConfig pixelColourArray0 [⟨0, 0, 0, 0⟩] 0 0 0
      (by norm_num)).2.1
    (by norm_num [pixelColourArray0, addClamp, mainConfig, colourBlue])

/-- C6 (code bug): `drawLine` evaluates edgeMargin = (1 / friction) *
acceleration before any check, so friction = 0 raises ZeroDivisionError on
every call — the rasteriser is not total at friction = 0 and no special case
disables the jump-rejection check. -/
theorem C6_zero_friction_crash :
    cfgZeroFriction.friction = 0 ∧
    drawLine cfgZeroFriction pixelColourArray0 [⟨1, 1, 0, 0⟩] 1 1 3 3 0 =
      none := by
  constructor
  · rfl
  · norm_num [drawLine, cfgZeroFriction]

set_option maxRecDepth 2000 in
/-- C9 (code bug): `randint(0, displayWidth)` includes both endpoints, so a
startup particle can be created at x = displayWidth — an integer position with
zero velocity, but NOT inside [0, displayWidth); the first tick then reads
exactly that out-of-range position for rasterisation. -/
theorem C9_startup_positions :
    displayWidth ∈ randintSupport 0 displayWidth ∧
    ¬((initialParticle displayWidth 5).x < (displayWidth : ℚ)) ∧
    (initialParticle displayWidth 5).vx = 0 ∧
    (initialParticle displayWidth 5).vy = 0 ∧
    (tick mainConfig (fun p => p) pixelColourArray0
        [initialParticle displayWidth 5]).map TickOut.reads =
      some [initialParticle displayWidth 5] := by
  refine ⟨?_, ?_, rfl, rfl, ?_⟩
  · simp [randintSupport]
  · norm_num [initialParticle]
  · norm_num [tick, tickLoop, processOne, boundPositionToWindow, boundAxis,
      setPart, drawLine, pyMod, pyInt,
      mainConfig, displayWidth, displayHeight, targetWindowSize, pixelScale,
      friction, acceleration, initialParticle, List.getD]

/-- C3 (code bug): a concrete two-particle, delete-mode tick.  Particle 0 at
(5, 5) moves out of range on x only: it is deleted inside the clamp, but the
sentinel check sees (0, 5) with 0 + 5 ≠ 0, so the loop writes particle 0's
clamped state (0, 5, 1, 1) over the particle that shifted into index 0 and
paints cell (0, 5) for it; the read trace shows the second particle — live at
the start of the tick and never passed to deleteParticle — is read by no
iteration of the sweep: it is skipped and its state destroyed. -/
theorem C3_sweep_mid_deletion :
    (tick cfgDel fShift pixelColourArray0 [⟨5, 5, 0, 0⟩, ⟨3, 4, 0, 0⟩]).map
        (fun o => (o.ps, o.reads, o.paints)) =
      some ([⟨0, 5, 1, 1⟩], [⟨5, 5, 0, 0⟩], [((0 : ℤ), (5 : ℤ))]) ∧
    (⟨3, 4, 0, 0⟩ : Part) ∈ ([⟨5, 5, 0, 0⟩, ⟨3, 4, 0, 0⟩] : List Part) ∧
    (⟨3, 4, 0, 0⟩ : Part) ∉ ([⟨5, 5, 0, 0⟩] : List Part) ∧
    (⟨3, 4, 0, 0⟩ : Part) ∉ ([⟨0, 5, 1, 1⟩] : List Part) := by
  refine ⟨?_, by simp, ?_, ?_⟩
  · norm_num [tick, tickLoop, processOne, boundPositionToWindow, boundAxis,
      deleteParticle, setPart, drawParticle, drawLine, pyMod, pyInt, addClamp,
      setCell, cfgDel, fShift, colourBlue, pixelColourArray0, List.getD]
  · norm_num [Part.mk.injEq]
  · norm_num [Part.mk.injEq]

/-- C10: with the interpolation flag off, processing one live particle issues
at most one paint, at the integer truncation of the boundary-clamped new
position, through the very same `drawParticle` call — hence the same
saturation-death rule — as the interpolated path; on the deletion sentinel it
paints nothing. -/
theorem C10_no_interp_single_paint (cfg : Config) (f : Part → Part)
    (buf : Buffer) (ps : List Part) (cur : Nat) (buf2 : Buffer)
    (ps2 : List Part) (pr : List (ℤ × ℤ))
    (hi : cfg.interpolation = false)
    (h : processOne cfg f buf ps cur = some (buf2, ps2, pr)) :
    pr.length ≤ 1 ∧
    ∃ ps1 x2 y2,
      boundPositionToWindow cfg ps (f (ps.getD cur ⟨0, 0, 0, 0⟩)).x
          (f (ps.getD cur ⟨0, 0, 0, 0⟩)).y cur = some (ps1, x2, y2) ∧
      ((x2 + y2 = 0 ∧ buf2 = buf ∧ pr = []) ∨
        (x2 + y2 ≠ 0 ∧ ∃ ps3 o,
          setPart ps1 cur ⟨x2, y2, (f (ps.getD cur ⟨0, 0, 0, 0⟩)).vx,
              (f (ps.getD cur ⟨0, 0, 0, 0⟩)).vy⟩ = some ps3 ∧
          drawParticle cfg buf ps3 x2 y2 cur = some o ∧
          buf2 = o.buf ∧ ps2 = o.ps ∧ pr = o.paints ∧
          ∀ e ∈ pr, e = (pyInt x2, pyInt y2))) := by
  unfold processOne at h
  dsimp only at h
  cases hb : boundPositionToWindow cfg ps (f (ps.getD cur ⟨0, 0, 0, 0⟩)).x
      (f (ps.getD cur ⟨0, 0, 0, 0⟩)).y cur with
  | none => rw [hb] at h; cases h
  | some r1 =>
    obtain ⟨ps1, x2, y2⟩ := r1
    rw [hb] at h
    dsimp only at h
    by_cases hs : x2 + y2 = 0
    · rw [if_pos hs] at h
      simp only [Option.some.injEq, Prod.mk.injEq] at h
      obtain ⟨rfl, rfl, rfl⟩ := h
      exact ⟨by simp, ps1, x2, y2, rfl, Or.inl ⟨hs, rfl, rfl⟩⟩
    · rw [if_neg hs] at h
      cases hsp : setPart ps1 cur ⟨x2, y2, (f (ps.getD cur ⟨0, 0, 0, 0⟩)).vx,
          (f (ps.getD cur ⟨0, 0, 0, 0⟩)).vy⟩ with
      | none => rw [hsp] at h; cases h
      | some ps3 =>
        rw [hsp] at h
        dsimp only at h
        rw [if_pos hi] at h
        cases hdp : drawParticle cfg buf ps3 x2 y2 cur with
        | none => rw [hdp] at h; cases h
        | some o =>
          rw [hdp] at h
          dsimp only at h
          simp only [Option.some.injEq, Prod.mk.injEq] at h
          obtain ⟨rfl, rfl, rfl⟩ := h
          have hp := drawParticle_paints hdp
          exact ⟨hp.1, ps1, x2, y2, rfl,
            Or.inr ⟨hs, ps3, o, hsp, hdp, rfl, rfl, rfl, hp.2⟩⟩

/-- C10 witness: a one-particle wrap run with interpolation off (the wrapped
position hits the (0, 0) sentinel, so no paint is issued). -/
theorem C10_no_interp_single_paint_witness :
    ([] : List (ℤ × ℤ)).length ≤ 1 :=
  (C10_no_interp_single_paint cfgNoInterp fJump pixelColourArray0
      [⟨0, 0, 0, 0⟩] 0 pixelColourArray0 [⟨0, 0, 0, 0⟩] [] rfl
      (by norm_num [processOne, boundPositionToWindow, boundAxis, pyMod,
        cfgNoInterp, fJump, List.getD])).1

end Flowfields
